import Mathlib

/-!
Shallow embedding of the `exceltable` table-scanning engine
(`exceltable/reader.py` and the address helpers of `exceltable/command.py`),
together with proofs checking the natural-language specification against it.

Cell values delivered by the grid source are modelled by the inductive type
`Value`.  Python floats are modelled as exact rationals (the only operations
the code performs on them are `is_integer`, `int(...)` and equality);
timestamps are modelled as a calendar-day index plus a time-of-day index,
midnight being time 0, so that `datetime.time(0)` comparison and `.date()`
are expressible.
-/

namespace Exceltable

/-- A spreadsheet cell value as delivered by the grid source
(openpyxl `values_only` iteration): `none` is Python `None`,
`float` is an exact rational model of a Python float,
`datetime d t` is a timestamp on day `d` with time-of-day `t`
(`t = 0` is midnight), `date d` is a date-only value. -/
inductive Value where
  | none : Value
  | str (s : String) : Value
  | int (n : Int) : Value
  | float (q : Rat) : Value
  | datetime (d : Nat) (t : Nat) : Value
  | date (d : Nat) : Value
  | bool (b : Bool) : Value
deriving DecidableEq

/-- Python truthiness (`bool(v)`) of a cell value: `None`, `""`, numeric zero
and `False` are falsy; datetimes and dates are always truthy. -/
def truthy : Value → Bool
  | Value.none => false
  | Value.str s => !(s == "")
  | Value.int n => !(n == 0)
  | Value.float q => !(q == 0)
  | Value.datetime _ _ => true
  | Value.date _ => true
  | Value.bool b => b

/-- Python `v in (None, "")` — the blank test used by repeat-fill
(`reader.py` line 231). -/
def isBlank (v : Value) : Bool :=
  v == Value.none || v == Value.str ""

/-- Numeric view of a value, used for Python `==` which identifies `30` with
`30.0` and `True` with `1` across the int/float/bool types. -/
def pyNum : Value → Option Rat
  | Value.int n => some (n : Rat)
  | Value.float q => some q
  | Value.bool b => some (if b then 1 else 0)
  | _ => Option.none

/-- Python `==` on cell values: numeric values compare by value across
int/float/bool, everything else compares structurally. -/
def pyEq (a b : Value) : Bool :=
  match pyNum a, pyNum b with
  | some x, some y => x == y
  | _, _ => a == b

/-- Python `str(v)` for the value kinds a header cell can hold.  Strings,
ints and integral floats (the cases the header builder's trailing-`.0` strip
is aimed at) are rendered exactly as Python renders them; non-integral
floats and timestamps are rendered abstractly (no claim exercises them,
and the model has no calendar). -/
def pyStr : Value → String
  | Value.none => "None"
  | Value.str s => s
  | Value.int n => toString n
  | Value.float q =>
      if q.den = 1 then toString q.num ++ ".0"
      else toString q.num ++ "/" ++ toString q.den
  | Value.datetime d t => "datetime(" ++ toString d ++ "," ++ toString t ++ ")"
  | Value.date d => "date(" ++ toString d ++ ")"
  | Value.bool b => if b then "True" else "False"

/-- One step of `BaseReader._trim` (`reader.py` lines 196-203): an integral
float becomes the corresponding int, a midnight timestamp becomes a date,
everything else is unchanged. -/
def trimValue : Value → Value
  | Value.float q => if q.den = 1 then Value.int q.num else Value.float q
  | Value.datetime d t => if t = 0 then Value.date d else Value.datetime d t
  | v => v

/-- `BaseReader._trim` applied to a whole row (the generator is modelled as a
map over the list of values). -/
def trimList (values : List Value) : List Value :=
  values.map trimValue

/-- A merged-cell rectangle as openpyxl reports it: 1-based inclusive
row/column bounds (`r.min_row`, `r.max_row`, `r.min_col`, `r.max_col`). -/
structure CellRange where
  min_row : Nat
  max_row : Nat
  min_col : Nat
  max_col : Nat
deriving DecidableEq

/-- `BaseReader._mergearea` (`reader.py` lines 101-126): given a 0-based
cell address, return the first merge range containing it, converted to
0-based inclusive bounds, or `none` when the cell is unmerged. -/
def mergearea (ranges : List CellRange) (row col : Nat) : Option (Nat × Nat × Nat × Nat) :=
  let r1 := row + 1
  let c1 := col + 1
  match ranges.find? (fun r =>
      decide (r.min_row ≤ r1) && decide (r1 ≤ r.max_row) &&
      decide (r.min_col ≤ c1) && decide (c1 ≤ r.max_col)) with
  | Option.none => Option.none
  | some r => some (r.min_row - 1, r.max_row - 1, r.min_col - 1, r.max_col - 1)

/-- A stop-row / stop-column specification, the four duck-typed cases of
`BaseReader._isbreak_factory` (`reader.py` lines 128-138):
an absolute index (Python int), a boundary literal (Python float or str,
stored as a `Value`), a caller-supplied predicate over the value the code
hands it, or unset (`None`). -/
inductive Criteria where
  | none : Criteria
  | int (n : Int) : Criteria
  | lit (v : Value) : Criteria
  | pred (f : Value → Bool) : Criteria

/-- The predicate produced by `BaseReader._isbreak_factory`: an int criteria
compares the row/column index, a float/str criteria compares the value with
Python `==`, a callable receives the value, and an unset criteria is
`not bool(value)`. -/
def isbreak (c : Criteria) (idx : Nat) (value : Value) : Bool :=
  match c with
  | Criteria.none => !(truthy value)
  | Criteria.int n => ((idx : Int) == n)
  | Criteria.lit w => pyEq value w
  | Criteria.pred f => f value

/-- The scan configuration held on the reader instance
(`BaseReader.__init__`). -/
structure Config where
  start_row : Nat
  start_col : Nat
  stop_row : Criteria
  stop_col : Criteria
  header_rows : Nat
  empty : Value
  repeat' : Bool
  trim : Bool

/-- The trailing-`.0` strip of `_get_fields` (`reader.py` lines 178-179):
`if v.endswith(".0"): v = v[:-2]`. -/
def strip0 (s : String) : String :=
  match s.data.reverse with
  | '0' :: '.' :: _ => String.mk (s.data.take (s.data.length - 2))
  | _ => s

/-- Python `.replace(NEWLINE, "")` for the single-character pattern `"\n"`:
every newline character is removed. -/
def stripNL (s : String) : String :=
  String.mk (s.data.filter (fun c => !(c == '\n')))

/-- Python `"_".join`. -/
def joinU : List String → String
  | [] => ""
  | [s] => s
  | s :: rest => s ++ "_" ++ joinU rest

/-- openpyxl's `get_column_letter` helper loop (external collaborator):
1-based column number to spreadsheet letters, bijective base 26. -/
def colLetterAux (n : Nat) (acc : List Char) : List Char :=
  let q := (n - 1) / 26
  let c := Char.ofNat (65 + (n - 1) % 26)
  if q = 0 then c :: acc else colLetterAux q (c :: acc)
termination_by n
decreasing_by
  have h1 : (n - 1) / 26 ≤ n - 1 := Nat.div_le_self _ _
  omega

/-- openpyxl's `get_column_letter`: 1-based column number to letters. -/
def get_column_letter (n : Nat) : String :=
  String.mk (colLetterAux n [])

/-- The value a single header cell contributes before the truthiness test,
per `_get_fields` (`reader.py` lines 166-175): outside any merge region the
literal cell (a missing cell reads as `""` via the `IndexError` handler);
inside a merge region, `rows[row][ma[2]]` when the current absolute row is
the region's anchor row — an out-of-range anchor column is an uncaught
`IndexError`, modelled as `Option.none` — and `None` on the region's
non-anchor rows. -/
def headerCellValue (ranges : List CellRange) (rows : List (List Value))
    (start_row start_col row col : Nat) : Option Value :=
  match mergearea ranges (start_row + row) (start_col + col) with
  | Option.none => some ((rows.getD row []).getD col (Value.str ""))
  | some (rlo, _, clo, _) =>
      if rlo = start_row + row then (rows.getD row []).get? clo
      else some Value.none

/-- The list `f` of non-empty textual contributions of one column across the
header rows (`reader.py` lines 163-180), `Option.none` propagating an
uncaught `IndexError`. -/
def buildParts (ranges : List CellRange) (rows : List (List Value))
    (start_row start_col col : Nat) : List Nat → Option (List String)
  | [] => some []
  | r :: rest =>
      match headerCellValue ranges rows start_row start_col r col with
      | Option.none => Option.none
      | some v =>
          match buildParts ranges rows start_row start_col col rest with
          | Option.none => Option.none
          | some parts =>
              some (if truthy v then strip0 (pyStr v) :: parts else parts)

/-- The joined candidate name of one column:
`"_".join(f).replace(NEWLINE, "")`. -/
def buildField (ranges : List CellRange) (rows : List (List Value))
    (start_row start_col col : Nat) : Option String :=
  (buildParts ranges rows start_row start_col col (List.range rows.length)).map
    (fun parts => stripNL (joinU parts))

/-- The column loop of `_get_fields` (`reader.py` lines 161-185): build each
column's name, substitute the spreadsheet letter for an empty name, and on
the first column satisfying the stop condition (evaluated on the pre-
substitution name) drop that column's name and stop. -/
def getFieldsGo (ranges : List CellRange) (rows : List (List Value))
    (start_row start_col : Nat) (stop_col : Criteria) :
    List Nat → List String → Option (List String)
  | [], acc => some acc
  | col :: rest, acc =>
      match buildField ranges rows start_row start_col col with
      | Option.none => Option.none
      | some field =>
          let name := if field == "" then get_column_letter (start_col + col + 1) else field
          if isbreak stop_col (start_col + col) (Value.str field) then some acc
          else getFieldsGo ranges rows start_row start_col stop_col rest (acc ++ [name])

/-- `_get_fields` up to (but excluding) the duplicate-name pass, on the
consumed header rows.  The empty header-row list is Python's
`max()`-of-empty `ValueError`, modelled as `Option.none`. -/
def getFieldsRaw (cfg : Config) (ranges : List CellRange)
    (rows : List (List Value)) : Option (List String) :=
  match rows with
  | [] => Option.none
  | _ =>
      getFieldsGo ranges rows cfg.start_row cfg.start_col cfg.stop_col
        (List.range ((rows.map List.length).foldl max 0)) []

/-- Python `f"{v}_{n}"`, the candidate built by the duplicate-name pass. -/
def subName (v : String) (n : Nat) : String :=
  v ++ "_" ++ Nat.repr n

/-- The inner `for n in count(1)` search of `_get_fields`
(`reader.py` lines 189-193): the lowest `n` from `n0` upward whose candidate
is not among the earlier names.  The loop in the source is unbounded; here
it carries fuel, which the lemmas below show is never exhausted when it
starts at `seen.length + 1`. -/
def findAlt (v : String) (seen : List String) : Nat → Nat → String
  | 0, n => subName v n
  | fuel + 1, n => if subName v n ∈ seen then findAlt v seen fuel (n + 1) else subName v n

/-- The duplicate-name pass of `_get_fields` (`reader.py` lines 187-193):
scan left to right, `acc` being the already-finalized prefix
(`fields[:k]`). -/
def dedupGo : List String → List String → List String
  | [], acc => acc
  | v :: rest, acc =>
      dedupGo rest (acc ++ [if v ∈ acc then findAlt v acc (acc.length + 1) 1 else v])

/-- The duplicate-name pass applied to the whole candidate list. -/
def dedup (fields : List String) : List String :=
  dedupGo fields []

/-- `BaseReader._get_fields` in full: the field names of the table. -/
def getFields (cfg : Config) (ranges : List CellRange)
    (rows : List (List Value)) : Option (List String) :=
  (getFieldsRaw cfg ranges rows).map dedup

/-- The empty-cell substitution of `__iter__` (`reader.py` line 228):
`[self.empty if v is None else v for v in row]`. -/
def substEmpty (empty : Value) (row : List Value) : List Value :=
  row.map (fun v => if v == Value.none then empty else v)

/-- The repeat-fill comprehension of `__iter__` (`reader.py` lines 230-232):
`[p if v in (None, "") else v for (v, p) in zip(values, prev)]` — note the
`zip` truncates to the shorter of the two lists, exactly as in Python. -/
def repeatFill (values prev : List Value) : List Value :=
  (values.zip prev).map (fun p => if isBlank p.1 then p.2 else p.1)

/-- The data-row loop of `DictReader.__iter__` (`reader.py` lines 223-235
with `DictReader._build`, lines 251-252).  Each yielded record is the
`zip(keys, values)` association list.  When `trim` is on, `values` is the
`_trim` generator: `_build` consumes `min(len(fieldnames), len(values))`
items from it, so the later `prev = values` stores an iterator whose
remaining elements are `final.drop fieldnames.length` — faithfully modelled
here, including the resulting interaction with repeat-fill. -/
def scanGo (cfg : Config) (fieldnames : List String) :
    List (List Value) → Nat → List Value → List (List (String × Value))
  | [], _, _ => []
  | row :: rest, absrow, prev =>
      let values := substEmpty cfg.empty row
      if values.length < 1 || isbreak cfg.stop_row absrow (values.headD Value.none) then []
      else
        let filled := if cfg.repeat' then repeatFill values prev else values
        let final := if cfg.trim then trimList filled else filled
        let prev2 := if cfg.repeat' then
            (if cfg.trim then final.drop fieldnames.length else filled) else prev
        (fieldnames.zip final) :: scanGo cfg fieldnames rest (absrow + 1) prev2

/-- The full `DictReader` iteration over the data rows (the rows delivered
after the header rows): `prev` starts as `[None] * len(fieldnames)` and the
absolute row counter starts at `start_row + header_rows`. -/
def scan (cfg : Config) (fieldnames : List String)
    (rows : List (List Value)) : List (List (String × Value)) :=
  scanGo cfg fieldnames rows (cfg.start_row + cfg.header_rows)
    (List.replicate fieldnames.length Value.none)

/-- Python `str.isdigit` restricted to ASCII digits (the only digits the
command-line shell ever passes). -/
def isDigitChar (c : Char) : Bool :=
  decide (48 ≤ c.toNat) && decide (c.toNat ≤ 57)

/-- Decimal parse of an all-digit string, Python `int(s)`. -/
def parseDecList (cs : List Char) : Nat :=
  cs.foldl (fun a c => 10 * a + (c.toNat - 48)) 0

/-- The `RADIX26` translation table of `command.py` (lines 48-49):
`A`-`J` and `a`-`j` become the digits `0`-`9`, `K`-`Z` becomes `A`-`P`,
`k`-`z` becomes `a`-`p`, every other character is left unchanged. -/
def radix26 (c : Char) : Char :=
  if 65 ≤ c.toNat ∧ c.toNat ≤ 74 then Char.ofNat (c.toNat - 17)
  else if 75 ≤ c.toNat ∧ c.toNat ≤ 90 then Char.ofNat (c.toNat - 10)
  else if 97 ≤ c.toNat ∧ c.toNat ≤ 106 then Char.ofNat (c.toNat - 49)
  else if 107 ≤ c.toNat ∧ c.toNat ≤ 122 then Char.ofNat (c.toNat - 10)
  else c

/-- The value of one character as a base-26 digit for Python `int(s, 26)`:
`0`-`9` are 0-9, `A`-`P` and `a`-`p` are 10-25, anything else raises
`ValueError`. -/
def digit26 (c : Char) : Option Nat :=
  if 48 ≤ c.toNat ∧ c.toNat ≤ 57 then some (c.toNat - 48)
  else if 65 ≤ c.toNat ∧ c.toNat ≤ 80 then some (c.toNat - 55)
  else if 97 ≤ c.toNat ∧ c.toNat ≤ 112 then some (c.toNat - 87)
  else Option.none

/-- Accumulator loop for `int(s, 26)`. -/
def parse26Go (a : Nat) : List Char → Option Nat
  | [] => some a
  | c :: rest =>
      match digit26 c with
      | Option.none => Option.none
      | some d => parse26Go (26 * a + d) rest

/-- Python `int(s, 26)` on the translated column string: empty or
invalid-digit input is a `ValueError` (`Option.none`); sign and whitespace
forms never arise from the translated column letters and are not
modelled. -/
def parse26 (cs : List Char) : Option Nat :=
  match cs with
  | [] => Option.none
  | _ => parse26Go 0 cs

/-- Result of `_inner_col` on a string argument: the empty-string sentinel,
a 0-based column index, or the unresolved string passed through as a
boundary literal. -/
inductive InnerColResult where
  | empty : InnerColResult
  | idx (n : Int) : InnerColResult
  | str (s : String) : InnerColResult
deriving DecidableEq

/-- `_inner_col` of `command.py` (lines 54-62) on a string argument:
`""` maps to the empty sentinel; an all-digit string is a 1-based index,
converted to 0-based; otherwise leading `$` markers are stripped, the rest
is translated through `RADIX26` and read in base 26, and the offsets
`(0, 1, 27, 703)` indexed by the stripped length are added (minus one);
a `ValueError` from `int` returns the stripped string unchanged, while a
string longer than 3 that survives `int` hits an uncaught `IndexError`
on the offset tuple, modelled as `Option.none`. -/
def innerColStr (col : String) : Option InnerColResult :=
  if col.data = [] then some InnerColResult.empty
  else if col.data.all isDigitChar then
    some (InnerColResult.idx ((parseDecList col.data : Int) - 1))
  else
    let stripped := col.data.dropWhile (fun c => c == '$')
    match parse26 (stripped.map radix26) with
    | some v =>
        match stripped.length with
        | 0 => some (InnerColResult.idx ((v : Int) + 0 - 1))
        | 1 => some (InnerColResult.idx ((v : Int) + 1 - 1))
        | 2 => some (InnerColResult.idx ((v : Int) + 27 - 1))
        | 3 => some (InnerColResult.idx ((v : Int) + 703 - 1))
        | _ => Option.none
    | Option.none => some (InnerColResult.str (String.mk stripped))

/-- The claim's formula for a column-letter string: sum over the letters,
most significant first, of (letter ordinal − `A` + 1) · 26^position,
minus one. -/
def specColIndex (ls : List Char) : Int :=
  (ls.reverse.enum.map
    (fun p => ((p.2.toNat : Int) - 65 + 1) * (26 : Int) ^ p.1)).sum - 1

/-- The reader defaults: one header row at A1, no stop conditions,
`empty=None`, `repeat=False`, `trim=True`. -/
def cfgDefault : Config :=
  ⟨0, 0, Criteria.none, Criteria.none, 1, Value.none, false, true⟩

/-- Defaults with `repeat=True` (and the default `trim=True`). -/
def cfgRepeat : Config :=
  ⟨0, 0, Criteria.none, Criteria.none, 1, Value.none, true, true⟩

/-- `repeat=True`, `trim=True`, with `stop_row=100` so that the default
falsy-first-cell stop cannot fire on the test rows. -/
def cfgRepeatStop100 : Config :=
  ⟨0, 0, Criteria.int 100, Criteria.none, 1, Value.none, true, true⟩

/-- `repeat=True`, `trim=False`, `stop_row=100`. -/
def cfgRepeatNoTrim : Config :=
  ⟨0, 0, Criteria.int 100, Criteria.none, 1, Value.none, true, false⟩

/-- Two header rows, otherwise default. -/
def cfgTwoHeader : Config :=
  ⟨0, 0, Criteria.none, Criteria.none, 2, Value.none, false, true⟩

/-- The data rows of the claim C1 / spec scenario 5 table:
`[["X", 1], ["", 2], ["", 3]]`. -/
def c1rows : List (List Value) :=
  [[Value.str "X", Value.int 1], [Value.str "", Value.int 2],
   [Value.str "", Value.int 3]]

/-- The Python callable `lambda row: row[0] == "END"` (a whole-row
predicate as the reader's docstring invites), as the code actually applies
it — to a single cell value: indexing a string takes its first character.
The non-string cases would raise in Python and are never exercised here. -/
def c4pred : Value → Bool
  | Value.str s => String.mk (s.data.take 1) == "END"
  | _ => false

/-- A scan configured with the whole-row stop callable of `c4pred`. -/
def cfgC4 : Config :=
  ⟨0, 0, Criteria.pred c4pred, Criteria.none, 1, Value.none, false, true⟩

/-- The header row of claim C8 / spec scenario 1. -/
def c8hdr : List (List Value) := [[Value.str "Name", Value.str "Age"]]

/-- The data rows of claim C8 / spec scenario 1:
`[["Al", 30.0], ["Bo", None]]`. -/
def c8rows : List (List Value) :=
  [[Value.str "Al", Value.float 30], [Value.str "Bo", Value.none]]

/-- The header rows of the claim C9 failing input: the second header row is
shorter than the first, and a merge region anchored at row 1, column 1
(0-based) spans columns 1-2 there, so the anchor column lies beyond the
short row's length. -/
def c9hdr : List (List Value) :=
  [[Value.str "A", Value.str "B", Value.str "C"], [Value.str "x"]]

/-- The merge region of the C9 failing input, in openpyxl's 1-based
inclusive coordinates: rows 2-2, columns 2-3. -/
def c9ranges : List CellRange := [⟨2, 2, 2, 3⟩]

/-- The header row of the C3 input: a column with an empty joined name
sits between two named columns. -/
def c3hdr : List (List Value) := [[Value.str "Name", Value.none, Value.str "X"]]

/-- The two header rows of the claim C5 scenario: a merge region anchored
at A1 spans columns 0-1 of row 0 with value `"Totals"`; row 1 is
`["A", "B"]`.  In the backing grid only the anchor cell carries the
value. -/
def c5hdr : List (List Value) :=
  [[Value.str "Totals", Value.none], [Value.str "A", Value.str "B"]]

/-- The merge region of the C5 scenario (1-based inclusive): row 1,
columns 1-2. -/
def c5ranges : List CellRange := [⟨1, 1, 1, 2⟩]

/-- A configuration with `start_col = 1`, used by the C5 counterexample. -/
def cfgStartCol1 : Config :=
  ⟨0, 1, Criteria.none, Criteria.none, 1, Value.none, false, true⟩

/-- The single header row of the C5 counterexample, relative to
`start_col = 1`: the sheet's absolute columns 1 and 2 hold `"V"` and
`"W"`, and a merge region anchored at absolute column 1 spans both. -/
def c5xhdr : List (List Value) := [[Value.str "V", Value.str "W"]]

/-- The merge region of the C5 counterexample (1-based inclusive): row 1,
columns 2-3 — absolute 0-based columns 1-2, anchored at column 1. -/
def c5xranges : List CellRange := [⟨1, 1, 2, 3⟩]

/-- Acceptance of a data row under the default (unset) `stop_row`: the
substituted row is non-empty and its first cell is truthy.  The scan of
`__iter__` terminates at the first row violating this. -/
def acceptRow (cfg : Config) (row : List Value) : Bool :=
  !((substEmpty cfg.empty row).isEmpty) &&
    truthy ((substEmpty cfg.empty row).headD Value.none)

/-- Per-row value processing of `__iter__` when repeat-fill is off:
empty substitution followed by trimming when enabled. -/
def postRow (cfg : Config) (row : List Value) : List Value :=
  if cfg.trim then trimList (substEmpty cfg.empty row)
  else substEmpty cfg.empty row

/-- Decimal digit value of a character (`'0'` to `'9'` map to 0-9), used
to state the round-trip property of `Nat.repr` needed by the duplicate-name
termination argument. -/
def dval (c : Char) : Nat := c.toNat - 48

/-- Accumulator-style decimal parse, the left inverse of `Nat.repr`. -/
def parseAux (a : Nat) : List Char → Nat
  | [] => a
  | c :: cs => parseAux (10 * a + dval c) cs

/-- The specification's duplicate-resolution rule, relating the candidate
name list to the final field names: `acc` is the already-finalized prefix
("the earlier names"); a name not among them is kept, and a name equal to
an earlier one is replaced by the name plus the lowest numeric suffix
`_1`, `_2`, ... not already used among the earlier names. -/
inductive DedupRel : List String → List String → List String → Prop where
  | nil (acc : List String) : DedupRel acc [] []
  | keep (acc : List String) (v : String) (rest out : List String) :
      v ∉ acc → DedupRel (acc ++ [v]) rest out → DedupRel acc (v :: rest) (v :: out)
  | rename (acc : List String) (v : String) (n : Nat) (rest out : List String) :
      v ∈ acc → 1 ≤ n → subName v n ∉ acc →
      (∀ m, 1 ≤ m → m < n → subName v m ∈ acc) →
      DedupRel (acc ++ [subName v n]) rest out →
      DedupRel acc (v :: rest) (subName v n :: out)

/-- Accumulated base-26 value of a letter string, with letter values
`ord(c) - ord('A')` — the number `int(s.translate(RADIX26), 26)` computes
for an all-letter `s`. -/
def valNat (ls : List Char) : Nat :=
  ls.foldl (fun x c => 26 * x + (c.toNat - 65)) 0

/-! ### Theorems -/

theorem trimValue_trimValue (v : Value) : trimValue (trimValue v) = trimValue v := by
  cases v with
  | float q =>
      by_cases h : q.den = 1
      · simp [trimValue, h]
      · simp [trimValue, h]
  | datetime d t =>
      by_cases h : t = 0
      · simp [trimValue, h]
      · simp [trimValue, h]
  | _ => rfl

/-- Claim C6: trimming is idempotent — applying `_trim` to an already-trimmed
row yields a row identical to it element by element. -/
theorem claim_C6 (values : List Value) : trimList (trimList values) = trimList values := by
  unfold trimList
  rw [List.map_map]
  apply List.map_congr_left
  intro v _
  exact trimValue_trimValue v

/-- Claim C1, evaluated on the code (the claim itself is refuted by these
runs).  First conjunct: with repeat on and all other settings left at the
defaults, scanning `[["X",1],["",2],["",3]]` under fields `["Name","Val"]`
yields only the single record `{"Name":"X","Val":1}` — the default
`stop_row=None` condition treats the falsy first cell `""` of the second
row as the table boundary, so the claimed second and third records are
never produced.  Second conjunct: even with a stop row that never fires
(`stop_row=100`), the second and third records are empty, not filled: with
`trim` on, `__iter__` rebinds `prev` to the exhausted `_trim` generator, so
the repeat-fill `zip` against `prev` empties every later row.  Third
conjunct: with `trim` off (and the non-firing stop row) the code behaves
exactly as the claim describes, locating the defect in the
`prev = values` line. -/
theorem claim_C1 :
    scan cfgRepeat ["Name", "Val"] c1rows =
      [[("Name", Value.str "X"), ("Val", Value.int 1)]] ∧
    scan cfgRepeatStop100 ["Name", "Val"] c1rows =
      [[("Name", Value.str "X"), ("Val", Value.int 1)], [], []] ∧
    scan cfgRepeatNoTrim ["Name", "Val"] c1rows =
      [[("Name", Value.str "X"), ("Val", Value.int 1)],
       [("Name", Value.str "X"), ("Val", Value.int 2)],
       [("Name", Value.str "X"), ("Val", Value.int 3)]] := by
  refine ⟨?_, ?_, ?_⟩ <;> decide

/-- Claim C4, evaluated on the code (the claim itself is refuted by this
run).  `__iter__` invokes a callable `stop_row` with `values[0]` — the
row's first cell — not with the whole row's list of values as the claim
(and the reader's own docstring) states.  With the predicate
`lambda row: row[0] == "END"` and the data row `["END", 5]`, the claimed
reading terminates the scan before yielding the row; the code instead
calls the predicate on the cell `"END"` (so `row[0]` is the character
`"E"`, which differs from `"END"`) and yields the row. -/
theorem claim_C4 :
    scan cfgC4 ["Name", "Val"] [[Value.str "END", Value.int 5]] =
      [[("Name", Value.str "END"), ("Val", Value.int 5)]] := by
  decide

/-- Counterexample to claim C8: with repeat off, trim on and the default
empty-cell substitute, the second yielded record holds `None` for `"Age"`,
not the empty string the claim states — the reader's default `empty` is
Python `None`, which is substituted for the missing cell unchanged. -/
theorem claim_C8_counterexample :
    scan cfgDefault ["Name", "Age"] c8rows ≠
      [[("Name", Value.str "Al"), ("Age", Value.int 30)],
       [("Name", Value.str "Bo"), ("Age", Value.str "")]] := by
  decide

/-- Claim C8 as amended: scanning header `["Name","Age"]` and rows
`[["Al",30.0],["Bo",None]]` with repeat off and trim on yields exactly the
records `{"Name":"Al","Age":30}` and `{"Name":"Bo","Age":None}` — the
float `30.0` is trimmed to the integer `30`, and the missing cell receives
the default empty substitute `None` (not `""`). -/
theorem claim_C8 :
    getFields cfgDefault [] c8hdr = some ["Name", "Age"] ∧
    scan cfgDefault ["Name", "Age"] c8rows =
      [[("Name", Value.str "Al"), ("Age", Value.int 30)],
       [("Name", Value.str "Bo"), ("Age", Value.none)]] := by
  exact ⟨by decide, by decide⟩

/-- Claim C9, evaluated on the code (the claim itself is refuted by the
first run).  First conjunct: on a grid whose merge region's anchor column
lies beyond a short header row's length, `_get_fields` evaluates
`rows[row][ma[2]]` outside the `try/except IndexError` guard and raises
(modelled as `Option.none`) instead of treating the missing cell as blank.
Second conjunct: without merge regions the same short rows are handled
gracefully — the guarded branch turns the missing cell into `""` and the
field names are built normally, which is the behaviour the claim (and the
guarded branch itself) says was intended everywhere. -/
theorem claim_C9 :
    getFields cfgTwoHeader c9ranges c9hdr = Option.none ∧
    getFields cfgTwoHeader [] c9hdr = some ["A_x", "B", "C"] := by
  exact ⟨by decide, by decide⟩

/-- Counterexample to claim C3: with `stop_col` unset, `_get_fields` on the
single header row `["Name", None, "X"]` returns only `["Name"]` — the unset
criteria is `not bool(value)`, not "unconditionally false", so the scan
stops at the first column whose joined name is empty, and neither the
letter-substituted `"B"` nor the later `"X"` make it into the field
list (the claim predicts `["Name", "B", "X"]`). -/
theorem claim_C3_counterexample :
    getFields cfgDefault [] c3hdr = some ["Name"] ∧
    getFields cfgDefault [] c3hdr ≠ some ["Name", "B", "X"] := by
  exact ⟨by decide, by decide⟩

/-- Column loop of `_get_fields` under an unset `stop_col`: the loop
keeps exactly the maximal prefix of columns whose joined names are
non-empty. -/
theorem getFieldsGo_none (ranges : List CellRange) (rows : List (List Value))
    (start_row start_col : Nat) (f : Nat → String) :
    ∀ (cols : List Nat) (acc : List String),
    (∀ col ∈ cols, buildField ranges rows start_row start_col col = some (f col)) →
    getFieldsGo ranges rows start_row start_col Criteria.none cols acc =
      some (acc ++ ((cols.map f).takeWhile (fun s => !(s == "")))) := by
  intro cols
  induction cols with
  | nil => intro acc _; simp [getFieldsGo]
  | cons col rest ih =>
      intro acc h
      have hcol : buildField ranges rows start_row start_col col = some (f col) :=
        h col (List.mem_cons_self col rest)
      have hrest : ∀ c ∈ rest, buildField ranges rows start_row start_col c = some (f c) :=
        fun c hc => h c (List.mem_cons_of_mem col hc)
      simp only [getFieldsGo, hcol, isbreak, truthy, Bool.not_not, List.map_cons]
      by_cases he : f col = ""
      · simp [he, List.takeWhile_cons]
      · have he' : (f col == "") = false := by simpa using he
        simp only [he', Bool.false_eq_true, if_false, List.takeWhile_cons, Bool.not_false,
          if_true]
        rw [ih (acc ++ [f col]) hrest]
        simp [List.append_assoc]

/-- Claim C3 as amended: when `stop_col` is left unset, the stop condition
evaluated on each column is "the joined candidate name is empty" rather
than "unconditionally false" — `_get_fields` returns (after duplicate
resolution) the joined names of the maximal prefix of columns whose joined
names are non-empty; columns from the first empty-named one onward are
dropped, so the spreadsheet-letter substitution never survives into the
result under an unset `stop_col`. -/
theorem claim_C3 (cfg : Config) (ranges : List CellRange)
    (rows : List (List Value)) (f : Nat → String)
    (hstop : cfg.stop_col = Criteria.none) (hrows : rows ≠ [])
    (hf : ∀ col ∈ List.range ((rows.map List.length).foldl max 0),
      buildField ranges rows cfg.start_row cfg.start_col col = some (f col)) :
    getFields cfg ranges rows =
      some (dedup ((((List.range ((rows.map List.length).foldl max 0)).map f).takeWhile
        (fun s => !(s == ""))))) := by
  unfold getFields getFieldsRaw
  cases rows with
  | nil => exact absurd rfl hrows
  | cons r rs =>
      rw [hstop,
        getFieldsGo_none ranges (r :: rs) cfg.start_row cfg.start_col f _ [] hf]
      simp

/-- Witness for claim C3 at the concrete input of the counterexample: the
amended characterization evaluates to `["Name"]` there. -/
theorem claim_C3_witness : getFields cfgDefault [] c3hdr = some ["Name"] := by
  have h := claim_C3 cfgDefault [] c3hdr
    (fun col => List.getD ["Name", "", "X"] col "") rfl (by decide) (by decide)
  rw [h]
  decide

/-- Counterexample to claim C5: with `start_col = 1` the merge anchor's
value is `"V"` (the sheet cell at the anchor, absolute column 1), so the
claim predicts both spanned columns contribute `"V"` giving fields
`["V", "V_1"]`; the code instead indexes the start_col-relative row with
the absolute anchor column (`rows[row][ma[2]]`) and contributes `"W"`,
giving `["W", "W_1"]`. -/
theorem claim_C5_counterexample :
    getFields cfgStartCol1 c5xranges c5xhdr = some ["W", "W_1"] ∧
    getFields cfgStartCol1 c5xranges c5xhdr ≠ some ["V", "V_1"] := by
  exact ⟨by decide, by decide⟩

/-- Claim C5 as amended: when `start_col = 0` (where the relative and
absolute column numbering coincide), a header cell inside a merge region
contributes the anchor row's value at the anchor column to every column
the region spans — but only in the anchor row; rows of the region below
the anchor row contribute `None`, i.e. nothing (first conjunct; the
`Option`-valued fetch is `Option.none` exactly when the anchor column is
outside the row, the uncaught `IndexError` of claim C9).  In particular
(second conjunct) the scenario grid — merge spanning columns 0-1 of header
row 0 with value `"Totals"`, row 1 `["A","B"]` — yields the field names
`["Totals_A", "Totals_B"]`. -/
theorem claim_C5 :
    (∀ (ranges : List CellRange) (rows : List (List Value))
        (sr r c rlo rhi clo chi : Nat),
        mergearea ranges (sr + r) c = some (rlo, rhi, clo, chi) →
        headerCellValue ranges rows sr 0 r c =
          (if rlo = sr + r then (rows.getD r []).get? clo else some Value.none)) ∧
    getFields cfgTwoHeader c5ranges c5hdr = some ["Totals_A", "Totals_B"] := by
  constructor
  · intro ranges rows sr r c rlo rhi clo chi h
    unfold headerCellValue
    rw [Nat.zero_add, h]
  · decide

/-- Witness for claim C5 at a concrete cell of the scenario grid: column 1
of header row 0 lies inside the merge region whose anchor row is row 0, so
it contributes the anchor's value `"Totals"`. -/
theorem claim_C5_witness :
    headerCellValue c5ranges c5hdr 0 0 0 1 = some (Value.str "Totals") := by
  have h := claim_C5.1 c5ranges c5hdr 0 0 1 0 0 0 1 (by decide)
  rw [h]
  decide

/-- Claim C10: when `stop_row` is left unset, the row scan yields exactly
the rows of the maximal prefix in which every substituted row is non-empty
with a truthy first cell, and terminates (yielding nothing further) at the
first row whose first cell after empty-substitution is falsy — the falsy
cell values being `None`, the empty string and numeric zero (second
group of conjuncts); in particular a legitimate `0` in the first column
ends the scan early, as the witness below instantiates. -/
theorem claim_C10 :
    (∀ (cfg : Config) (fn : List String) (rows : List (List Value))
        (n : Nat) (prev : List Value),
      cfg.stop_row = Criteria.none → cfg.repeat' = false →
      scanGo cfg fn rows n prev =
        (rows.takeWhile (acceptRow cfg)).map (fun row => fn.zip (postRow cfg row))) ∧
    truthy Value.none = false ∧ truthy (Value.str "") = false ∧
    truthy (Value.int 0) = false ∧ truthy (Value.float 0) = false ∧
    truthy (Value.bool false) = false := by
  refine ⟨?_, rfl, by decide, by decide, by decide, rfl⟩
  intro cfg fn rows
  induction rows with
  | nil => intro n prev _ _; rfl
  | cons row rest ih =>
      intro n prev h1 h2
      simp only [scanGo, h1, h2, if_false, Bool.false_eq_true]
      cases hv : substEmpty cfg.empty row with
      | nil =>
          have ha : acceptRow cfg row = false := by
            simp [acceptRow, hv]
          simp [hv, ha, List.takeWhile_cons]
      | cons a as =>
          by_cases ht : truthy a = true
          · have ha : acceptRow cfg row = true := by
              simp [acceptRow, hv, ht]
            simp only [hv, List.takeWhile_cons, ha, if_true, List.map_cons,
              List.length_cons, isbreak, List.headD_cons, ht, Bool.not_true,
              Bool.or_false]
            have hlen : (decide (as.length + 1 < 1)) = false := by
              simp
            simp only [hlen, Bool.false_eq_true, if_false]
            have hp : postRow cfg row = if cfg.trim = true then trimList (a :: as) else a :: as := by
              simp only [postRow, hv]
            rw [hp, ih (n + 1) prev h1 h2]
          · have ht' : truthy a = false := by
              cases htt : truthy a
              · rfl
              · exact absurd htt ht
            have ha : acceptRow cfg row = false := by
              simp [acceptRow, hv, ht']
            simp [hv, ha, List.takeWhile_cons, isbreak, ht']

/-- Witness for claim C10: a concrete scan in which a legitimate `0` in the
first column of the second data row ends the scan after one record. -/
theorem claim_C10_witness :
    scan cfgDefault ["A"] [[Value.int 1], [Value.int 0], [Value.int 2]] =
      [[("A", Value.int 1)]] := by
  have h := claim_C10.1 cfgDefault ["A"]
    [[Value.int 1], [Value.int 0], [Value.int 2]]
    (cfgDefault.start_row + cfgDefault.header_rows)
    (List.replicate (["A"] : List String).length Value.none) rfl rfl
  unfold scan
  rw [h]
  decide


theorem parseAux_cons (a : Nat) (c : Char) (cs : List Char) :
    parseAux a (c :: cs) = parseAux (10 * a + dval c) cs := rfl

theorem dval_digitChar {d : Nat} (h : d < 10) : dval (Nat.digitChar d) = d := by
  interval_cases d <;> rfl

/-- Reading the digits produced by `Nat.toDigitsCore` back recovers the
number, provided the fuel covers the number of digits. -/
theorem parse_toDigitsCore :
    ∀ (fuel n : Nat) (ds : List Char), n < 10 ^ fuel →
    parseAux 0 (Nat.toDigitsCore 10 fuel n ds) = parseAux n ds := by
  intro fuel
  induction fuel with
  | zero =>
      intro n ds h
      have hn : n = 0 := by simpa using h
      subst hn
      rfl
  | succ f ih =>
      intro n ds h
      have hred : Nat.toDigitsCore 10 (f + 1) n ds =
          if n / 10 = 0 then Nat.digitChar (n % 10) :: ds
          else Nat.toDigitsCore 10 f (n / 10) (Nat.digitChar (n % 10) :: ds) := by
        conv_lhs => rw [Nat.toDigitsCore]
      by_cases h0 : n / 10 = 0
      · have hlt : n < 10 := by omega
        rw [hred, if_pos h0]
        have : parseAux 0 (Nat.digitChar (n % 10) :: ds) = parseAux (n % 10) ds := by
          rw [parseAux_cons, dval_digitChar (Nat.mod_lt n (by norm_num))]
          congr 1
          omega
        rw [this, Nat.mod_eq_of_lt hlt]
      · rw [hred, if_neg h0]
        have hdiv : n / 10 < 10 ^ f := by
          rw [Nat.div_lt_iff_lt_mul (by norm_num)]
          calc n < 10 ^ (f + 1) := h
          _ = 10 ^ f * 10 := by ring
        rw [ih (n / 10) (Nat.digitChar (n % 10) :: ds) hdiv]
        have : parseAux (n / 10) (Nat.digitChar (n % 10) :: ds) =
            parseAux (10 * (n / 10) + (n % 10)) ds := by
          rw [parseAux_cons, dval_digitChar (Nat.mod_lt n (by norm_num))]
        rw [this]
        congr 1
        omega

theorem lt_ten_pow (n : Nat) : n < 10 ^ (n + 1) := by
  induction n with
  | zero => norm_num
  | succ k ih =>
      have h1 : 10 ^ (k + 1) * 1 ≤ 10 ^ (k + 1) * 10 := Nat.mul_le_mul_left _ (by norm_num)
      have h2 : 10 ^ (k + 2) = 10 ^ (k + 1) * 10 := by ring
      omega

/-- Decimal parsing is a left inverse of `Nat.repr`. -/
theorem parse_repr (n : Nat) : parseAux 0 (Nat.repr n).data = n := by
  have h1 : (Nat.repr n).data = Nat.toDigits 10 n := by
    simp [Nat.repr, List.asString]
  rw [h1]
  unfold Nat.toDigits
  rw [parse_toDigitsCore (n + 1) n [] (lt_ten_pow n)]
  rfl

theorem repr_inj {m n : Nat} (h : Nat.repr m = Nat.repr n) : m = n := by
  rw [← parse_repr m, ← parse_repr n, h]

theorem subName_inj {v : String} {a b : Nat} (h : subName v a = subName v b) : a = b := by
  unfold subName at h
  have h2 : (v ++ "_").data ++ (Nat.repr a).data = (v ++ "_").data ++ (Nat.repr b).data := by
    have h1 := congrArg String.data h
    simpa [String.data_append] using h1
  have h3 : (Nat.repr a).data = (Nat.repr b).data := List.append_cancel_left h2
  exact repr_inj (String.ext h3)

/-- Pigeonhole argument: among the first `seen.length + 1` suffix
candidates, at least one is not among the earlier names, so the suffix
search of `_get_fields` terminates within that fuel. -/
theorem exists_free (v : String) (seen : List String) :
    ∃ k, k < seen.length + 1 ∧ subName v (1 + k) ∉ seen := by
  by_contra hc
  push_neg at hc
  have hsub : (Finset.range (seen.length + 1)).image (fun k => subName v (1 + k)) ⊆
      seen.toFinset := by
    intro s hs
    rw [Finset.mem_image] at hs
    obtain ⟨k, hk, rfl⟩ := hs
    rw [List.mem_toFinset]
    exact hc k (Finset.mem_range.mp hk)
  have hinj : ∀ x ∈ Finset.range (seen.length + 1), ∀ y ∈ Finset.range (seen.length + 1),
      subName v (1 + x) = subName v (1 + y) → x = y := by
    intro x _ y _ hxy
    have := subName_inj hxy
    omega
  have hcard := Finset.card_le_card hsub
  rw [Finset.card_image_of_injOn hinj, Finset.card_range] at hcard
  have := seen.toFinset_card_le
  omega

/-- When some candidate within the fuel is free, `findAlt` returns the
lowest free candidate at or above its starting point. -/
theorem findAlt_spec :
    ∀ (fuel n : Nat) (v : String) (seen : List String),
    (∃ k, k < fuel ∧ subName v (n + k) ∉ seen) →
    ∃ j, findAlt v seen fuel n = subName v (n + j) ∧ subName v (n + j) ∉ seen ∧
      ∀ i, i < j → subName v (n + i) ∈ seen := by
  intro fuel
  induction fuel with
  | zero =>
      intro n v seen h
      obtain ⟨k, hk, _⟩ := h
      omega
  | succ f ih =>
      intro n v seen h
      obtain ⟨k, hk, hfree⟩ := h
      by_cases hmem : subName v n ∈ seen
      · have hk0 : k ≠ 0 := by
          rintro rfl
          exact hfree hmem
        have hnext : ∃ k2, k2 < f ∧ subName v (n + 1 + k2) ∉ seen := by
          refine ⟨k - 1, by omega, ?_⟩
          rw [show n + 1 + (k - 1) = n + k from by omega]
          exact hfree
        obtain ⟨j, hj1, hj2, hj3⟩ := ih (n + 1) v seen hnext
        refine ⟨j + 1, ?_, ?_, ?_⟩
        · show (if subName v n ∈ seen then findAlt v seen f (n + 1) else subName v n) = _
          rw [if_pos hmem, hj1]
          congr 1
          omega
        · rw [show n + (j + 1) = n + 1 + j from by omega]
          exact hj2
        · intro i hi
          cases i with
          | zero => simpa using hmem
          | succ i2 =>
              have := hj3 i2 (by omega)
              rw [show n + (i2 + 1) = n + 1 + i2 from by omega]
              exact this
      · refine ⟨0, ?_, by simpa using hmem, by omega⟩
        show (if subName v n ∈ seen then findAlt v seen f (n + 1) else subName v n) = _
        rw [if_neg hmem]
        congr 1

/-- The duplicate-name pass extends its finalized prefix by a block
satisfying the specification relation `DedupRel`. -/
theorem dedupGo_rel : ∀ (fields acc : List String),
    ∃ out, dedupGo fields acc = acc ++ out ∧ DedupRel acc fields out := by
  intro fields
  induction fields with
  | nil => intro acc; exact ⟨[], by simp [dedupGo], DedupRel.nil acc⟩
  | cons v rest ih =>
      intro acc
      by_cases hmem : v ∈ acc
      · have hex : ∃ k, k < acc.length + 1 ∧ subName v (1 + k) ∉ acc := exists_free v acc
        obtain ⟨j, hj1, hj2, hj3⟩ := findAlt_spec (acc.length + 1) 1 v acc hex
        obtain ⟨out2, ho1, ho2⟩ := ih (acc ++ [findAlt v acc (acc.length + 1) 1])
        refine ⟨findAlt v acc (acc.length + 1) 1 :: out2, ?_, ?_⟩
        · show dedupGo rest (acc ++ [if v ∈ acc then findAlt v acc (acc.length + 1) 1 else v]) = _
          rw [if_pos hmem, ho1]
          simp
        · rw [hj1] at ho2 ⊢
          refine DedupRel.rename acc v (1 + j) rest out2 hmem (by omega) hj2 ?_ ho2
          intro m hm1 hm2
          have := hj3 (m - 1) (by omega)
          rw [show 1 + (m - 1) = m from by omega] at this
          exact this
      · obtain ⟨out2, ho1, ho2⟩ := ih (acc ++ [v])
        refine ⟨v :: out2, ?_, DedupRel.keep acc v rest out2 hmem ho2⟩
        show dedupGo rest (acc ++ [if v ∈ acc then findAlt v acc (acc.length + 1) 1 else v]) = _
        rw [if_neg hmem, ho1]
        simp

/-- The duplicate-name pass of `_get_fields` realizes the specification
relation. -/
theorem dedup_rel (fields : List String) : DedupRel [] fields (dedup fields) := by
  obtain ⟨out, h1, h2⟩ := dedupGo_rel fields []
  unfold dedup
  rw [h1]
  simpa using h2

theorem DedupRel.nodup_append : ∀ {acc fields out : List String},
    DedupRel acc fields out → acc.Nodup → (acc ++ out).Nodup := by
  intro acc fields out h
  induction h with
  | nil acc => intro h2; simpa using h2
  | keep acc v rest out hv _ ih =>
      intro hacc
      have h1 : (acc ++ [v]).Nodup := by
        simp [List.nodup_append, hacc, hv]
      have := ih h1
      simpa using this
  | rename acc v n rest out hv _ hfree _ _ ih =>
      intro hacc
      have h1 : (acc ++ [subName v n]).Nodup := by
        simp [List.nodup_append, hacc, hfree]
      have := ih h1
      simpa using this

/-- The output of the duplicate-name pass has no duplicates. -/
theorem dedup_nodup (fields : List String) : (dedup fields).Nodup := by
  have := (dedup_rel fields).nodup_append List.nodup_nil
  simpa using this

/-- Claim C2: for every header input on which `_get_fields` returns, the
field-name sequence is pairwise distinct, and it is obtained from the raw
candidate names by the left-to-right rule of `DedupRel`: a name equal to an
earlier (finalized) name is replaced by that name plus the lowest numeric
suffix `_1`, `_2`, ... not already used among the earlier names. -/
theorem claim_C2 (cfg : Config) (ranges : List CellRange)
    (rows : List (List Value)) (fs : List String)
    (h : getFields cfg ranges rows = some fs) :
    List.Pairwise (· ≠ ·) fs ∧
    ∃ raw, getFieldsRaw cfg ranges rows = some raw ∧ DedupRel [] raw fs := by
  unfold getFields at h
  cases hr : getFieldsRaw cfg ranges rows with
  | none => rw [hr] at h; simp at h
  | some raw =>
      rw [hr] at h
      have h2 : dedup raw = fs := by simpa using h
      subst h2
      exact ⟨dedup_nodup raw, raw, rfl, dedup_rel raw⟩

/-- Witness for claim C2: a header row with duplicate names, including a
pre-existing `"A_1"`, resolves to pairwise distinct field names. -/
theorem claim_C2_witness :
    getFields cfgDefault [] [[Value.str "A", Value.str "A", Value.str "A_1"]] =
      some ["A", "A_1", "A_1_1"] ∧
    List.Pairwise (· ≠ ·) ["A", "A_1", "A_1_1"] :=
  ⟨by decide, (claim_C2 cfgDefault [] [[Value.str "A", Value.str "A", Value.str "A_1"]]
      ["A", "A_1", "A_1_1"] (by decide)).1⟩


/-- Below the surrogate range, `Char.ofNat` round-trips through `toNat`. -/
theorem char_toNat_ofNat {n : Nat} (h : n < 55296) : (Char.ofNat n).toNat = n := by
  unfold Char.ofNat
  rw [dif_pos (Or.inl (by simpa using h))]
  simp [Char.ofNatAux, Char.toNat, UInt32.ofNat', UInt32.toNat]

/-- An uppercase letter, translated through `RADIX26`, reads back as the
base-26 digit `ord(c) - ord('A')`. -/
theorem digit26_radix26 {c : Char} (h1 : 65 ≤ c.toNat) (h2 : c.toNat ≤ 90) :
    digit26 (radix26 c) = some (c.toNat - 65) := by
  by_cases hj : c.toNat ≤ 74
  · have hr : radix26 c = Char.ofNat (c.toNat - 17) := by
      unfold radix26
      rw [if_pos ⟨h1, hj⟩]
    have ht : (Char.ofNat (c.toNat - 17)).toNat = c.toNat - 17 :=
      char_toNat_ofNat (by omega)
    unfold digit26
    rw [hr, ht, if_pos (by omega : 48 ≤ c.toNat - 17 ∧ c.toNat - 17 ≤ 57)]
    have : c.toNat - 17 - 48 = c.toNat - 65 := by omega
    rw [this]
  · have hr : radix26 c = Char.ofNat (c.toNat - 10) := by
      unfold radix26
      rw [if_neg (by omega), if_pos ⟨by omega, h2⟩]
    have ht : (Char.ofNat (c.toNat - 10)).toNat = c.toNat - 10 :=
      char_toNat_ofNat (by omega)
    unfold digit26
    rw [hr, ht, if_neg (by omega : ¬(48 ≤ c.toNat - 10 ∧ c.toNat - 10 ≤ 57)),
      if_pos (by omega : 65 ≤ c.toNat - 10 ∧ c.toNat - 10 ≤ 80)]
    have : c.toNat - 10 - 55 = c.toNat - 65 := by omega
    rw [this]

/-- Letters are not decimal digits. -/
theorem isDigitChar_letter {c : Char} (h1 : 65 ≤ c.toNat) : isDigitChar c = false := by
  unfold isDigitChar
  simp only [Bool.and_eq_false_iff, decide_eq_false_iff_not]
  omega

/-- Letters differ from the fixed-column marker. -/
theorem beq_dollar_letter {c : Char} (h1 : 65 ≤ c.toNat) : (c == '$') = false := by
  by_cases h : c = '$'
  · subst h
    simp at h1
  · simpa using h

/-- Parsing the `RADIX26`-translated letters accumulates their base-26
value. -/
theorem parse26Go_letters :
    ∀ (cs : List Char) (a : Nat), (∀ c ∈ cs, 65 ≤ c.toNat ∧ c.toNat ≤ 90) →
    parse26Go a (cs.map radix26) =
      some (cs.foldl (fun x c => 26 * x + (c.toNat - 65)) a) := by
  intro cs
  induction cs with
  | nil => intro a _; rfl
  | cons c t ih =>
      intro a h
      have hc := h c (List.mem_cons_self c t)
      have hd : digit26 (radix26 c) = some (c.toNat - 65) := digit26_radix26 hc.1 hc.2
      simp only [List.map_cons, parse26Go, hd, List.foldl_cons]
      exact ih (26 * a + (c.toNat - 65)) (fun x hx => h x (List.mem_cons_of_mem c hx))

/-- Reduction of `_inner_col` on a (possibly `$`-prefixed) 1- to 3-letter
column string: the digit branch is not taken, the markers are stripped, the
translated string parses to the accumulated base-26 value, and the length
offset is applied. -/
theorem innerColStr_letters (pre ls : List Char) (hpre : pre = [] ∨ pre = ['$'])
    (hne : ls ≠ []) (h3 : ∀ c ∈ ls, 65 ≤ c.toNat ∧ c.toNat ≤ 90) :
    innerColStr (String.mk (pre ++ ls)) =
      (match ls.length with
      | 0 => some (InnerColResult.idx ((valNat ls : Int) + 0 - 1))
      | 1 => some (InnerColResult.idx ((valNat ls : Int) + 1 - 1))
      | 2 => some (InnerColResult.idx ((valNat ls : Int) + 27 - 1))
      | 3 => some (InnerColResult.idx ((valNat ls : Int) + 703 - 1))
      | _ => Option.none) := by
  obtain ⟨a, t, rfl⟩ : ∃ a t, ls = a :: t := by
    cases ls with
    | nil => exact absurd rfl hne
    | cons a t => exact ⟨a, t, rfl⟩
  have ha := h3 a (List.mem_cons_self a t)
  have hnil : ¬((pre ++ a :: t) = []) := by simp
  have hdig : ((pre ++ a :: t).all isDigitChar) = false := by
    rcases hpre with rfl | rfl
    · simp [List.all_cons, isDigitChar_letter ha.1]
    · simp [List.all_cons, (by decide : isDigitChar (Char.ofNat 36) = false),
        show '$' = Char.ofNat 36 from rfl]
  have hdrop : (pre ++ a :: t).dropWhile (fun c => c == '$') = a :: t := by
    rcases hpre with rfl | rfl
    · simp [List.dropWhile_cons, beq_dollar_letter ha.1]
    · simp [List.dropWhile_cons, beq_dollar_letter ha.1]
  have hparse : parse26 ((a :: t).map radix26) = some (valNat (a :: t)) := by
    simp only [List.map_cons, parse26]
    exact parse26Go_letters (a :: t) 0 h3
  unfold innerColStr
  rw [if_neg hnil, if_neg (by simp [hdig]), hdrop]
  simp only [hparse]

/-- Claim C7: for every string of one to three uppercase column letters,
optionally preceded by `$`, `_inner_col` returns the standard zero-based
column index — the sum over the letters, most significant first, of
(letter ordinal − `A` + 1)·26^position, minus one (`specColIndex`). -/
theorem claim_C7 (ls : List Char) (dollar : Bool)
    (h1 : 1 ≤ ls.length) (h2 : ls.length ≤ 3)
    (h3 : ∀ c ∈ ls, 'A' ≤ c ∧ c ≤ 'Z') :
    innerColStr (String.mk ((if dollar then ['$'] else []) ++ ls)) =
      some (InnerColResult.idx (specColIndex ls)) := by
  have hpre : (if dollar then ['$'] else []) = [] ∨ (if dollar then ['$'] else []) = ['$'] := by
    cases dollar
    · exact Or.inl rfl
    · exact Or.inr rfl
  have h3' : ∀ c ∈ ls, 65 ≤ c.toNat ∧ c.toNat ≤ 90 := by
    intro c hc
    exact ⟨(h3 c hc).1, (h3 c hc).2⟩
  have hne : ls ≠ [] := by
    cases ls with
    | nil => simp at h1
    | cons a t => simp
  have hkey := innerColStr_letters (if dollar then ['$'] else []) ls hpre hne h3'
  rw [hkey]
  match ls, h1, h2 with
  | [a], _, _ =>
      have ha := h3' a (List.mem_cons_self a [])
      show some (InnerColResult.idx ((valNat [a] : Int) + 1 - 1)) =
        some (InnerColResult.idx (specColIndex [a]))
      refine congrArg (fun z => some (InnerColResult.idx z)) ?_
      simp [valNat, specColIndex, List.enum]
      omega
  | [a, b], _, _ =>
      have ha := h3' a (by simp)
      have hb := h3' b (by simp)
      show some (InnerColResult.idx ((valNat [a, b] : Int) + 27 - 1)) =
        some (InnerColResult.idx (specColIndex [a, b]))
      refine congrArg (fun z => some (InnerColResult.idx z)) ?_
      simp [valNat, specColIndex, List.enum]
      omega
  | [a, b, c], _, _ =>
      have ha := h3' a (by simp)
      have hb := h3' b (by simp)
      have hc := h3' c (by simp)
      show some (InnerColResult.idx ((valNat [a, b, c] : Int) + 703 - 1)) =
        some (InnerColResult.idx (specColIndex [a, b, c]))
      refine congrArg (fun z => some (InnerColResult.idx z)) ?_
      simp [valNat, specColIndex, List.enum]
      ring_nf
      omega

/-- Witness for claim C7: the three-letter column `"AAA"` resolves to the
zero-based index 702. -/
theorem claim_C7_witness :
    innerColStr (String.mk ['A', 'A', 'A']) = some (InnerColResult.idx 702) := by
  have h := claim_C7 ['A', 'A', 'A'] false (by decide) (by decide) (by decide)
  exact h.trans (by decide)

end Exceltable
